import Mathlib

/-!
Verification development for the xControl automation library.

The Python sources are embedded shallowly: images are lists of rows of
pixels, machine `uint8` values are `Nat`s reduced `% 256` where the code
casts, fallible operations return `Except`, and the real-time polling
loops are modelled with an explicit clock-reading sequence and fuel.
-/

namespace XCtl

/-- A BGR pixel: (blue, green, red), each channel a `uint8` value. -/
abbrev Pixel := Nat × Nat × Nat

/-- A 3-channel colour image, row-major. -/
abbrev ColorImage := List (List Pixel)

/-- A single-channel (grayscale) image, row-major. -/
abbrev GrayImage := List (List Nat)

/-- `OCR_SPEC` from `ocr.py`: colour bounds in BGR order (the page
segmentation mode plays no role in the pixel pipeline). -/
structure OCRSpec where
  lowerBound : Pixel
  upperBound : Pixel
deriving Repr, DecidableEq

/-- Reduce each channel of a bound modulo 256, as `np.array(-, dtype=np.uint8)`
does in `OCR.__convert_to_bw`. -/
def toU8 (p : Pixel) : Pixel := (p.1 % 256, p.2.1 % 256, p.2.2 % 256)

/-- `cv2.inRange` membership test for one pixel: all three channels lie
within `[lo, hi]` inclusive. -/
def pixInRange (lo hi p : Pixel) : Bool :=
  decide (lo.1 ≤ p.1 ∧ p.1 ≤ hi.1 ∧ lo.2.1 ≤ p.2.1 ∧ p.2.1 ≤ hi.2.1 ∧
          lo.2.2 ≤ p.2.2 ∧ p.2.2 ≤ hi.2.2)

/-- `OCR.__convert_to_bw` (ocr.py lines 82-96).  The code computes
`bgMask = cv2.inRange(img, lower, upper) == 0` (true exactly at the pixels
NOT in `[lowerBound, upperBound]`), converts to grayscale, then writes 255 at
every `bgMask` pixel and 0 at every other pixel.  Since `bgMask` and its
complement cover the whole image, every grayscale value is overwritten, so the
result at each pixel is 0 when the pixel is inside the colour range and 255
otherwise; the intermediate `cv2.cvtColor` values never survive. -/
def convert_to_bw (img : ColorImage) (spec : OCRSpec) : GrayImage :=
  let lo := toU8 spec.lowerBound
  let hi := toU8 spec.upperBound
  img.map (fun row => row.map (fun p => if pixInRange lo hi p then 0 else 255))

/-- C1: counterexample.  A one-pixel image whose single pixel lies inside the
spec's colour range: the claim says such a pixel is set to 255 (white) and the
output is all-white, but `convert_to_bw` sets it to 0 (black). -/
theorem C1_counterexample :
    pixInRange (toU8 (0, 0, 0)) (toU8 (255, 255, 255)) (5, 5, 5) = true ∧
    convert_to_bw [[(5, 5, 5)]] ⟨(0, 0, 0), (255, 255, 255)⟩ = [[0]] ∧
    convert_to_bw [[(5, 5, 5)]] ⟨(0, 0, 0), (255, 255, 255)⟩ ≠ [[255]] := by
  refine ⟨by decide, rfl, by decide⟩

/-- C1 (amended): the binarize step produces a single-channel image in which
every pixel whose per-channel values fall within
`[spec.lowerBound, spec.upperBound]` inclusive is set to minimum intensity 0
(black) and every other pixel to maximum intensity 255 (white); when the
spec's colour range covers every pixel of the image, the output is
all-black. -/
theorem C1_amended_binarize (img : ColorImage) (spec : OCRSpec) :
    (∀ i j, i < img.length → j < (img.getD i []).length →
      ((convert_to_bw img spec).getD i []).getD j 1 =
        if pixInRange (toU8 spec.lowerBound) (toU8 spec.upperBound)
            ((img.getD i []).getD j (0, 0, 0)) then 0 else 255) ∧
    ((∀ p ∈ img.flatten,
        pixInRange (toU8 spec.lowerBound) (toU8 spec.upperBound) p = true) →
      ∀ v ∈ (convert_to_bw img spec).flatten, v = 0) := by
  constructor
  · intro i j hi hj
    unfold convert_to_bw
    simp only [List.getD_eq_getElem?_getD, List.getElem?_map]
    rcases h : img[i]? with _ | row
    · exact absurd hi (not_lt.mpr (List.getElem?_eq_none_iff.mp h))
    · simp only [Option.map_some, Option.getD_some]
      have hj' : j < row.length := by
        simpa [List.getD_eq_getElem?_getD, h] using hj
      simp [List.getElem?_map, List.getElem?_eq_getElem hj', h,
        List.getD_eq_getElem?_getD]
  · intro hall v hv
    unfold convert_to_bw at hv
    simp only [List.mem_flatten, List.mem_map] at hv
    obtain ⟨r, ⟨row, hrow, rfl⟩, hvr⟩ := hv
    simp only [List.mem_map] at hvr
    obtain ⟨p, hp, rfl⟩ := hvr
    have : p ∈ img.flatten := List.mem_flatten.mpr ⟨row, hrow, hp⟩
    simp [hall p this]

/-- C1 witness: the amended theorem applied at a concrete image and spec. -/
theorem C1_amended_binarize_witness :
    (∀ i j, i < ([[((5:Nat), (5:Nat), (5:Nat)), (9, 9, 9)]] : ColorImage).length →
      j < (([[((5:Nat), (5:Nat), (5:Nat)), (9, 9, 9)]] : ColorImage).getD i []).length →
      ((convert_to_bw [[(5, 5, 5), (9, 9, 9)]] ⟨(0, 0, 0), (6, 6, 6)⟩).getD i []).getD j 1 =
        if pixInRange (toU8 (0, 0, 0)) (toU8 (6, 6, 6))
            ((([[((5:Nat), (5:Nat), (5:Nat)), (9, 9, 9)]] : ColorImage).getD i []).getD j (0, 0, 0))
          then 0 else 255) ∧
    ((∀ p ∈ ([[((5:Nat), (5:Nat), (5:Nat)), (9, 9, 9)]] : ColorImage).flatten,
        pixInRange (toU8 (0, 0, 0)) (toU8 (6, 6, 6)) p = true) →
      ∀ v ∈ (convert_to_bw [[(5, 5, 5), (9, 9, 9)]] ⟨(0, 0, 0), (6, 6, 6)⟩).flatten, v = 0) :=
  C1_amended_binarize [[(5, 5, 5), (9, 9, 9)]] ⟨(0, 0, 0), (6, 6, 6)⟩

/-! ### `OCR.__improve_resolution` (ocr.py lines 98-115) -/

/-- `np.all(img == 255, axis=1)` at one row: every value equals 255. -/
def rowAllWhite (row : List Nat) : Bool := row.all (fun v => v == 255)

/-- Width of a row-major image: the length of its first row (numpy images
are rectangular, which theorems assume via an explicit hypothesis). -/
def imgWidth (img : GrayImage) : Nat := (img.headD []).length

/-- `np.all(img == 255, axis=0)` at one column: every row holds 255 there. -/
def colAllWhite (img : GrayImage) (j : Nat) : Bool :=
  img.all (fun row => row.getD j 0 == 255)

/-- `np.where(np.all(img == 255, axis=1) == False)[0]`: the (sorted) indices
of the rows that are not entirely white. -/
def nonWhiteRows (img : GrayImage) : List Nat :=
  (List.range img.length).filter (fun i => ! rowAllWhite (img.getD i []))

/-- `np.where(np.all(img == 255, axis=0) == False)[0]`: the (sorted) indices
of the columns that are not entirely white. -/
def nonWhiteCols (img : GrayImage) : List Nat :=
  (List.range (imgWidth img)).filter (fun j => ! colAllWhite img j)

/-- The numpy slice `l[a : b+1]`. -/
def sliceList (l : List α) (a b : Nat) : List α := (l.drop a).take (b + 1 - a)

/-- The cropping block of `OCR.__improve_resolution`: both index sets are
computed on the incoming image, then rows are sliced to
`[empty_rows[0], empty_rows[-1]]` when any non-white row exists, and columns
to `[empty_cols[0], empty_cols[-1]]` when any non-white column exists. -/
def cropWhiteBorder (img : GrayImage) : GrayImage :=
  let rs := nonWhiteRows img
  let cs := nonWhiteCols img
  let img1 := if rs.isEmpty then img else sliceList img (rs.headD 0) (rs.getLastD 0)
  if cs.isEmpty then img1
  else img1.map (fun row => sliceList row (cs.headD 0) (cs.getLastD 0))

/-- `np.pad(img, padding, mode="constant", constant_values=255)`: surround
the image with `n` rows/columns of white pixels on every side. -/
def padWhite (n : Nat) (img : GrayImage) : GrayImage :=
  let w := imgWidth img
  let padRow := List.replicate (w + 2 * n) 255
  List.replicate n padRow ++
    img.map (fun row => List.replicate n 255 ++ row ++ List.replicate n 255) ++
    List.replicate n padRow

/-- `cvRound(2.5 * n)`: OpenCV computes the destination size by rounding
`fx * cols`; `2.5 * n` is a half-integer exactly when `n` is odd, and
`cvRound` rounds halves to the nearest even integer. -/
def cvRound2_5 (n : Nat) : Nat :=
  if n % 2 = 0 then 5 * n / 2
  else if (5 * n / 2) % 2 = 0 then 5 * n / 2 else 5 * n / 2 + 1

/-- Clamp a source index into `[0, n-1]` (OpenCV border replication at the
image edge during interpolation). -/
def clampIdx (x : Int) (n : Nat) : Nat :=
  if x < 0 then 0 else min x.toNat (n - 1)

/-- One bilinearly interpolated sample of `img` at real source coordinates
`(sy, sx)`, with edge clamping and round-to-nearest on the result.  Models
the external `cv2.resize(..., interpolation=cv2.INTER_LINEAR)` sampling rule
(OpenCV's fixed-point weight quantization is not modelled; the theorems below
use only the output dimensions). -/
def bilinearAt (img : GrayImage) (h w : Nat) (sy sx : ℚ) : Nat :=
  let y0 : Int := ⌊sy⌋
  let x0 : Int := ⌊sx⌋
  let dy : ℚ := sy - y0
  let dx : ℚ := sx - x0
  let pix : Int → Int → ℚ := fun yi xi =>
    ((img.getD (clampIdx yi h) []).getD (clampIdx xi w) 0 : ℚ)
  let v : ℚ := (1 - dy) * (1 - dx) * pix y0 x0 + (1 - dy) * dx * pix y0 (x0 + 1) +
    dy * (1 - dx) * pix (y0 + 1) x0 + dy * dx * pix (y0 + 1) (x0 + 1)
  (⌊v + 1 / 2⌋).toNat

/-- `cv2.resize(img, None, fx=2.5, fy=2.5, interpolation=cv2.INTER_LINEAR)`:
the output has `cvRound(2.5 * rows)` rows and `cvRound(2.5 * cols)` columns,
each output pixel sampled at source coordinate `(i + 1/2) / 2.5 - 1/2`. -/
def resize2_5linear (img : GrayImage) : GrayImage :=
  let h := img.length
  let w := imgWidth img
  (List.range (cvRound2_5 h)).map (fun (i : Nat) =>
    (List.range (cvRound2_5 w)).map (fun (j : Nat) =>
      bilinearAt img h w (((i : ℚ) + 1 / 2) * (2 / 5) - 1 / 2)
        (((j : ℚ) + 1 / 2) * (2 / 5) - 1 / 2)))

/-- `OCR.__improve_resolution`: crop the all-white border, pad by a fixed
15-pixel white border, upscale by 2.5x with linear interpolation. -/
def improve_resolution (img : GrayImage) : GrayImage :=
  resize2_5linear (padWhite 15 (cropWhiteBorder img))

/-! Helper lemmas about sorted index lists and slices, shared across the
cropping claims. -/

lemma mem_filter_range {n : Nat} {p : Nat → Bool} {i : Nat} :
    i ∈ (List.range n).filter p ↔ i < n ∧ p i = true := by
  simp [List.mem_filter, List.mem_range]

lemma filter_range_sorted (n : Nat) (p : Nat → Bool) :
    ((List.range n).filter p).Sorted (· < ·) :=
  (List.sorted_lt_range n).filter p

lemma getLastD_mem {l : List Nat} (h : l ≠ []) (d : Nat) : l.getLastD d ∈ l := by
  rw [List.getLastD_eq_getLast?, List.getLast?_eq_getLast l h]
  exact List.getLast_mem h

lemma sorted_headD_min {l : List Nat} (hs : l.Sorted (· < ·)) {x : Nat} (hx : x ∈ l) :
    l.headD 0 ≤ x := by
  cases l with
  | nil => cases hx
  | cons a t =>
    rcases List.mem_cons.mp hx with rfl | hxt
    · simp
    · exact le_of_lt (List.rel_of_sorted_cons hs x hxt)

lemma sorted_getLastD_max {l : List Nat} (hs : l.Sorted (· < ·)) {x : Nat} (hx : x ∈ l) :
    x ≤ l.getLastD 0 := by
  induction l with
  | nil => cases hx
  | cons a t ih =>
    cases t with
    | nil =>
      rcases List.mem_cons.mp hx with rfl | hxt
      · simp
      · cases hxt
    | cons b u =>
      have hne : (b :: u : List Nat) ≠ [] := by simp
      have hlast : (a :: b :: u).getLastD 0 = (b :: u).getLastD 0 := by
        rw [List.getLastD_eq_getLast?, List.getLastD_eq_getLast?,
          List.getLast?_eq_getLast _ (by simp), List.getLast?_eq_getLast _ hne]
        simp [List.getLast]
      rcases List.mem_cons.mp hx with rfl | hxt
      · have hmem := getLastD_mem hne 0
        have := List.rel_of_sorted_cons hs _ hmem
        omega
      · rw [hlast]
        exact ih hs.of_cons hxt

/-- The head of the sorted filtered range is the least index satisfying `p`,
and its last element is the greatest. -/
lemma filter_range_head_last {n : Nat} {p : Nat → Bool} {l : List Nat}
    (hl : (List.range n).filter p = l) (h : l ≠ []) :
    (p (l.headD 0) = true ∧ l.headD 0 < n ∧ ∀ i < l.headD 0, p i = false) ∧
    (p (l.getLastD 0) = true ∧ l.getLastD 0 < n ∧
      ∀ i, l.getLastD 0 < i → i < n → p i = false) := by
  subst hl
  have hsort := filter_range_sorted n p
  have hheadmem : ((List.range n).filter p).headD 0 ∈ (List.range n).filter p := by
    cases hc : (List.range n).filter p with
    | nil => exact absurd hc h
    | cons a t => simp
  have hlastmem := getLastD_mem h 0
  have hhead := mem_filter_range.mp hheadmem
  have hlast := mem_filter_range.mp hlastmem
  refine ⟨⟨hhead.2, hhead.1, ?_⟩, ⟨hlast.2, hlast.1, ?_⟩⟩
  · intro i hi
    by_contra hpi
    have : i ∈ (List.range n).filter p := mem_filter_range.mpr ⟨lt_trans hi hhead.1, by
      cases hp : p i
      · exact absurd hp hpi
      · rfl⟩
    exact absurd (sorted_headD_min hsort this) (by omega)
  · intro i hgt hin
    by_contra hpi
    have : i ∈ (List.range n).filter p := mem_filter_range.mpr ⟨hin, by
      cases hp : p i
      · exact absurd hp hpi
      · rfl⟩
    exact absurd (sorted_getLastD_max hsort this) (by omega)

lemma sliceList_length {α : Type} {l : List α} {a b : Nat} :
    (sliceList l a b).length = min (b + 1 - a) (l.length - a) := by
  simp [sliceList]

lemma sliceList_getD {α : Type} {l : List α} {a b i : Nat} (d : α)
    (hi : i < b + 1 - a) (hlen : a + i < l.length) :
    (sliceList l a b).getD i d = l.getD (a + i) d := by
  have hlt : i < (sliceList l a b).length := by
    rw [sliceList_length]; omega
  rw [List.getD_eq_getElem _ _ hlt, List.getD_eq_getElem _ _ hlen]
  simp only [sliceList] at hlt ⊢
  rw [List.getElem_take, List.getElem_drop]

lemma sliceList_full {α : Type} {l : List α} (h : l ≠ []) :
    sliceList l 0 (l.length - 1) = l := by
  have : l.length - 1 + 1 - 0 = l.length := by
    cases l with
    | nil => exact absurd rfl h
    | cons a t => simp
  simp [sliceList, this]

lemma map_getD_of_lt {α β : Type} (f : α → β) (l : List α) (i : Nat) (d : β) (e : α)
    (hi : i < l.length) : (l.map f).getD i d = f (l.getD i e) := by
  rw [List.getD_eq_getElem _ _ (by simpa using hi), List.getD_eq_getElem _ _ hi,
    List.getElem_map]

lemma cropWhiteBorder_eq_slices (img : GrayImage)
    (hrs : nonWhiteRows img ≠ []) (hcs : nonWhiteCols img ≠ []) :
    cropWhiteBorder img =
      (sliceList img ((nonWhiteRows img).headD 0) ((nonWhiteRows img).getLastD 0)).map
        (fun row =>
          sliceList row ((nonWhiteCols img).headD 0) ((nonWhiteCols img).getLastD 0)) := by
  rw [cropWhiteBorder]
  simp only [List.isEmpty_iff, if_neg hrs, if_neg hcs]

lemma cvRound2_5_pos {n : Nat} (hn : 0 < n) : 0 < cvRound2_5 n := by
  have h5 : 2 ≤ 5 * n / 2 := by
    rw [Nat.le_div_iff_mul_le (by omega)]
    omega
  rw [cvRound2_5]
  split <;> [omega; split <;> omega]

lemma padWhite_length (n : Nat) (x : GrayImage) :
    (padWhite n x).length = x.length + 2 * n := by
  simp [padWhite]
  omega

lemma padWhite_width (n : Nat) (hn : 0 < n) (x : GrayImage) :
    imgWidth (padWhite n x) = imgWidth x + 2 * n := by
  obtain ⟨m, rfl⟩ : ∃ m, n = m + 1 := ⟨n - 1, by omega⟩
  simp [padWhite, imgWidth, List.replicate_succ]

lemma padWhite_row (n : Nat) (x : GrayImage) (i : Nat) (hi : i < x.length) :
    (padWhite n x).getD (n + i) [] =
      List.replicate n 255 ++ x.getD i [] ++ List.replicate n 255 := by
  rw [padWhite, List.getD_eq_getElem?_getD, List.append_assoc,
    List.getElem?_append_right (by simp), List.length_replicate,
    Nat.add_sub_cancel_left, List.getElem?_append_left (by simpa using hi),
    List.getElem?_map, List.getElem?_eq_getElem hi]
  simp [List.getD_eq_getElem _ _ hi, List.getElem?_eq_getElem hi]

lemma padWhite_interior (n : Nat) (x : GrayImage) (i j : Nat) (hi : i < x.length)
    (hj : j < (x.getD i []).length) :
    ((padWhite n x).getD (n + i) []).getD (n + j) 0 = (x.getD i []).getD j 0 := by
  rw [padWhite_row n x i hi, List.getD_eq_getElem?_getD, List.append_assoc,
    List.getElem?_append_right (by simp), List.length_replicate,
    Nat.add_sub_cancel_left, List.getElem?_append_left hj,
    ← List.getD_eq_getElem?_getD]

lemma padWhite_border (n : Nat) (x : GrayImage)
    (hrect : ∀ row ∈ x, row.length = imgWidth x)
    (i j : Nat) (hi : i < x.length + 2 * n) (hj : j < imgWidth x + 2 * n)
    (hout : i < n ∨ n + x.length ≤ i ∨ j < n ∨ n + imgWidth x ≤ j) :
    ((padWhite n x).getD i []).getD j 0 = 255 := by
  have hreplget : ∀ m k : Nat, k < m → (List.replicate m (255:Nat)).getD k 0 = 255 := by
    intro m k hk
    rw [List.getD_eq_getElem?_getD, List.getElem?_replicate, if_pos hk]
    rfl
  rcases Nat.lt_or_ge i n with hi1 | hi1
  · -- top padding rows
    have hpad : (padWhite n x).getD i [] = List.replicate (imgWidth x + 2 * n) 255 := by
      rw [padWhite, List.getD_eq_getElem?_getD, List.append_assoc,
        List.getElem?_append_left (by simpa using hi1), List.getElem?_replicate,
        if_pos hi1]
      rfl
    rw [hpad]
    exact hreplget _ _ hj
  rcases Nat.lt_or_ge i (n + x.length) with hi2 | hi2
  · -- a padded content row; j must lie in the side padding
    have hix : i - n < x.length := by omega
    have hrow := padWhite_row n x (i - n) hix
    rw [show n + (i - n) = i by omega] at hrow
    have hlen : (x.getD (i - n) []).length = imgWidth x := by
      refine hrect _ ?_
      rw [List.getD_eq_getElem _ _ hix]
      exact List.getElem_mem hix
    rcases hout with h | h | h | h
    · omega
    · omega
    · -- left padding columns
      rw [hrow, List.getD_eq_getElem?_getD, List.append_assoc,
        List.getElem?_append_left (by simpa using h), List.getElem?_replicate,
        if_pos h]
      rfl
    · -- right padding columns
      rw [hrow, List.getD_eq_getElem?_getD, List.append_assoc,
        List.getElem?_append_right (by simp; omega), List.length_replicate,
        List.getElem?_append_right (by omega), hlen,
        List.getElem?_replicate, if_pos (by omega)]
      rfl
  · -- bottom padding rows
    have hpad : (padWhite n x).getD i [] = List.replicate (imgWidth x + 2 * n) 255 := by
      rw [padWhite, List.getD_eq_getElem?_getD, List.append_assoc,
        List.getElem?_append_right (by simp; omega), List.length_replicate,
        List.getElem?_append_right (by simp; omega)]
      simp only [List.length_map, List.getElem?_replicate]
      rw [if_pos (by omega)]
      rfl
    rw [hpad]
    exact hreplget _ _ hj

lemma resize2_5linear_length (y : GrayImage) :
    (resize2_5linear y).length = cvRound2_5 y.length := by
  simp only [resize2_5linear, List.length_map, List.length_range]

lemma resize2_5linear_width (y : GrayImage) (hy : 0 < y.length) :
    imgWidth (resize2_5linear y) = cvRound2_5 (imgWidth y) := by
  have hpos : 0 < cvRound2_5 y.length := cvRound2_5_pos hy
  rw [imgWidth, List.headD_eq_head?, List.head?_eq_getElem?, resize2_5linear]
  rw [List.getElem?_map, List.getElem?_range hpos]
  simp

/-- C2: on a rectangular single-channel image, `__improve_resolution` first
crops exactly to the bounding box of the non-white (non-255) pixels — the
image is unchanged when no all-white border row or column exists, and an
entirely white image is not cropped at all — then pads with exactly 15 white
pixels on every side, then scales both dimensions by 2.5x (rounded as the
resize call rounds) using linear interpolation. -/
theorem C2_improve_resolution (img : GrayImage)
    (hrect : ∀ row ∈ img, row.length = imgWidth img) :
    ((∃ i, i < img.length ∧ rowAllWhite (img.getD i []) = false) →
      ∃ rmin rmax cmin cmax,
        rmin ≤ rmax ∧ rmax < img.length ∧ cmin ≤ cmax ∧ cmax < imgWidth img ∧
        rowAllWhite (img.getD rmin []) = false ∧
        rowAllWhite (img.getD rmax []) = false ∧
        (∀ i, i < rmin → rowAllWhite (img.getD i []) = true) ∧
        (∀ i, rmax < i → i < img.length → rowAllWhite (img.getD i []) = true) ∧
        colAllWhite img cmin = false ∧ colAllWhite img cmax = false ∧
        (∀ j, j < cmin → colAllWhite img j = true) ∧
        (∀ j, cmax < j → j < imgWidth img → colAllWhite img j = true) ∧
        (cropWhiteBorder img).length = rmax + 1 - rmin ∧
        (∀ i, i < rmax + 1 - rmin →
          ((cropWhiteBorder img).getD i []).length = cmax + 1 - cmin) ∧
        (∀ i j, i < rmax + 1 - rmin → j < cmax + 1 - cmin →
          ((cropWhiteBorder img).getD i []).getD j 0 =
            (img.getD (rmin + i) []).getD (cmin + j) 0)) ∧
    (img ≠ [] → rowAllWhite (img.getD 0 []) = false →
      rowAllWhite (img.getD (img.length - 1) []) = false →
      colAllWhite img 0 = false → colAllWhite img (imgWidth img - 1) = false →
      cropWhiteBorder img = img) ∧
    ((∀ row ∈ img, rowAllWhite row = true) → cropWhiteBorder img = img) ∧
    (∀ x : GrayImage, (∀ row ∈ x, row.length = imgWidth x) →
      (padWhite 15 x).length = x.length + 30 ∧
      imgWidth (padWhite 15 x) = imgWidth x + 30 ∧
      (∀ i j, i < x.length → j < imgWidth x →
        ((padWhite 15 x).getD (15 + i) []).getD (15 + j) 0 = (x.getD i []).getD j 0) ∧
      (∀ i j, i < x.length + 30 → j < imgWidth x + 30 →
        (i < 15 ∨ 15 + x.length ≤ i ∨ j < 15 ∨ 15 + imgWidth x ≤ j) →
        ((padWhite 15 x).getD i []).getD j 0 = 255)) ∧
    improve_resolution img = resize2_5linear (padWhite 15 (cropWhiteBorder img)) ∧
    (improve_resolution img).length = cvRound2_5 ((cropWhiteBorder img).length + 30) ∧
    imgWidth (improve_resolution img) = cvRound2_5 (imgWidth (cropWhiteBorder img) + 30) := by
  refine ⟨?_, ?_, ?_, ?_, rfl, ?_, ?_⟩
  · -- (a) bounding-box crop
    intro hnw
    have hrs : nonWhiteRows img ≠ [] := by
      obtain ⟨i, hi, hw⟩ := hnw
      exact List.ne_nil_of_mem (mem_filter_range.mpr ⟨hi, by simpa using hw⟩)
    obtain ⟨⟨hpm, hmlt, hmin⟩, hpM, hMlt, hmax⟩ :=
      filter_range_head_last (show (List.range img.length).filter
        (fun i => ! rowAllWhite (img.getD i [])) = nonWhiteRows img from rfl) hrs
    have hsorted : (nonWhiteRows img).Sorted (· < ·) :=
      filter_range_sorted img.length (fun i => ! rowAllWhite (img.getD i []))
    have hrmM : (nonWhiteRows img).headD 0 ≤ (nonWhiteRows img).getLastD 0 :=
      sorted_headD_min hsorted (getLastD_mem hrs 0)
    have hcsex : ∃ j, j < imgWidth img ∧ colAllWhite img j = false := by
      obtain ⟨i0, hi0, hrow0⟩ := hnw
      have hrowmem : img.getD i0 [] ∈ img := by
        rw [List.getD_eq_getElem _ _ hi0]
        exact List.getElem_mem hi0
      obtain ⟨v, hv, hv255⟩ : ∃ v ∈ img.getD i0 [], ¬(v == 255) = true :=
        List.all_eq_false.mp hrow0
      obtain ⟨j, hj, rfl⟩ := List.mem_iff_getElem.mp hv
      refine ⟨j, by rw [← hrect _ hrowmem]; exact hj, ?_⟩
      refine List.all_eq_false.mpr ⟨_, hrowmem, ?_⟩
      rw [List.getD_eq_getElem _ _ hj]
      exact hv255
    have hcs : nonWhiteCols img ≠ [] := by
      obtain ⟨j, hj, hcol⟩ := hcsex
      exact List.ne_nil_of_mem (mem_filter_range.mpr ⟨hj, by simpa using hcol⟩)
    obtain ⟨⟨hpcm, hcmlt, hcmin⟩, hpcM, hcMlt, hcmax⟩ :=
      filter_range_head_last (show (List.range (imgWidth img)).filter
        (fun j => ! colAllWhite img j) = nonWhiteCols img from rfl) hcs
    have hcsorted : (nonWhiteCols img).Sorted (· < ·) :=
      filter_range_sorted (imgWidth img) (fun j => ! colAllWhite img j)
    have hcmM : (nonWhiteCols img).headD 0 ≤ (nonWhiteCols img).getLastD 0 :=
      sorted_headD_min hcsorted (getLastD_mem hcs 0)
    have hcrop := cropWhiteBorder_eq_slices img hrs hcs
    have hrowi : ∀ i, i < (nonWhiteRows img).getLastD 0 + 1 - (nonWhiteRows img).headD 0 →
        (cropWhiteBorder img).getD i [] =
          sliceList (img.getD ((nonWhiteRows img).headD 0 + i) [])
            ((nonWhiteCols img).headD 0) ((nonWhiteCols img).getLastD 0) := by
      intro i hi
      have hlt : i < (sliceList img ((nonWhiteRows img).headD 0)
          ((nonWhiteRows img).getLastD 0)).length := by
        rw [sliceList_length]
        omega
      rw [hcrop, map_getD_of_lt _ _ _ _ [] hlt, sliceList_getD [] hi (by omega)]
    have hmemrow : ∀ i, i < (nonWhiteRows img).getLastD 0 + 1 - (nonWhiteRows img).headD 0 →
        img.getD ((nonWhiteRows img).headD 0 + i) [] ∈ img := by
      intro i hi
      rw [List.getD_eq_getElem _ _ (by omega)]
      exact List.getElem_mem _
    refine ⟨(nonWhiteRows img).headD 0, (nonWhiteRows img).getLastD 0,
      (nonWhiteCols img).headD 0, (nonWhiteCols img).getLastD 0,
      hrmM, hMlt, hcmM, hcMlt, by simpa using hpm, by simpa using hpM,
      fun i hi => by simpa using hmin i hi, fun i h1 h2 => by simpa using hmax i h1 h2,
      by simpa using hpcm, by simpa using hpcM,
      fun j hj => by simpa using hcmin j hj, fun j h1 h2 => by simpa using hcmax j h1 h2,
      ?_, ?_, ?_⟩
    · rw [hcrop, List.length_map, sliceList_length]
      omega
    · intro i hi
      rw [hrowi i hi, sliceList_length, hrect _ (hmemrow i hi)]
      omega
    · intro i j hi hj
      rw [hrowi i hi]
      exact sliceList_getD 0 hj (by rw [hrect _ (hmemrow i hi)]; omega)
  · -- (b) no all-white border row or column: the image is unchanged
    intro hne h0 hl hc0 hcl
    have hlen0 : 0 < img.length := List.length_pos.mpr hne
    have h0mem : 0 ∈ nonWhiteRows img := mem_filter_range.mpr ⟨hlen0, by simpa using h0⟩
    have hrs : nonWhiteRows img ≠ [] := List.ne_nil_of_mem h0mem
    have hlmem : img.length - 1 ∈ nonWhiteRows img :=
      mem_filter_range.mpr ⟨by omega, by simpa using hl⟩
    have hsorted : (nonWhiteRows img).Sorted (· < ·) :=
      filter_range_sorted img.length (fun i => ! rowAllWhite (img.getD i []))
    have hrm : (nonWhiteRows img).headD 0 = 0 :=
      Nat.le_zero.mp (sorted_headD_min hsorted h0mem)
    have hMlt := (filter_range_head_last (show (List.range img.length).filter
      (fun i => ! rowAllWhite (img.getD i [])) = nonWhiteRows img from rfl) hrs).2.2.1
    have hrM : (nonWhiteRows img).getLastD 0 = img.length - 1 := by
      have h1 := sorted_getLastD_max hsorted hlmem
      omega
    have hw0 : 0 < imgWidth img := by
      have hmem : img.getD 0 [] ∈ img := by
        rw [List.getD_eq_getElem _ _ hlen0]
        exact List.getElem_mem _
      have hnr : img.getD 0 [] ≠ [] := by
        intro hempty
        rw [hempty] at h0
        simp [rowAllWhite] at h0
      have := hrect _ hmem
      have := List.length_pos.mpr hnr
      omega
    have hc0mem : 0 ∈ nonWhiteCols img := mem_filter_range.mpr ⟨hw0, by simpa using hc0⟩
    have hcs : nonWhiteCols img ≠ [] := List.ne_nil_of_mem hc0mem
    have hclmem : imgWidth img - 1 ∈ nonWhiteCols img :=
      mem_filter_range.mpr ⟨by omega, by simpa using hcl⟩
    have hcsorted : (nonWhiteCols img).Sorted (· < ·) :=
      filter_range_sorted (imgWidth img) (fun j => ! colAllWhite img j)
    have hcm : (nonWhiteCols img).headD 0 = 0 :=
      Nat.le_zero.mp (sorted_headD_min hcsorted hc0mem)
    have hcMlt := (filter_range_head_last (show (List.range (imgWidth img)).filter
      (fun j => ! colAllWhite img j) = nonWhiteCols img from rfl) hcs).2.2.1
    have hcM : (nonWhiteCols img).getLastD 0 = imgWidth img - 1 := by
      have h1 := sorted_getLastD_max hcsorted hclmem
      omega
    rw [cropWhiteBorder_eq_slices img hrs hcs, hrm, hrM, hcm, hcM, sliceList_full hne]
    have hrows : ∀ row ∈ img, sliceList row 0 (imgWidth img - 1) = row := by
      intro row hrow
      have hlenr := hrect _ hrow
      have hrne : row ≠ [] := by
        intro hempty
        rw [hempty] at hlenr
        simp at hlenr
        omega
      have := sliceList_full hrne
      rw [← hlenr]
      exact this
    rw [List.map_congr_left (g := id) (fun a ha => hrows a ha), List.map_id]
  · -- (c) an entirely white image is not cropped
    intro hw
    have hrs : nonWhiteRows img = [] := by
      refine List.filter_eq_nil_iff.mpr ?_
      intro i hi
      rw [List.mem_range] at hi
      have hmem : img.getD i [] ∈ img := by
        rw [List.getD_eq_getElem _ _ hi]
        exact List.getElem_mem _
      simpa using hw _ hmem
    have hcs : nonWhiteCols img = [] := by
      refine List.filter_eq_nil_iff.mpr ?_
      intro j hj
      rw [List.mem_range] at hj
      simp only [Bool.not_eq_true', Bool.not_eq_false]
      refine List.all_eq_true.mpr ?_
      intro row hrow
      have hlenr := hrect _ hrow
      have hjr : j < row.length := by omega
      rw [List.getD_eq_getElem _ _ hjr]
      exact List.all_eq_true.mp (hw _ hrow) _ (List.getElem_mem hjr)
    rw [cropWhiteBorder]
    simp [hrs, hcs]
  · -- (d) 15-pixel white padding on every side
    intro x hx
    refine ⟨by rw [padWhite_length], by rw [padWhite_width 15 (by omega)],
      ?_, ?_⟩
    · intro i j hi hj
      refine padWhite_interior 15 x i j hi ?_
      have hmem : x.getD i [] ∈ x := by
        rw [List.getD_eq_getElem _ _ hi]
        exact List.getElem_mem _
      rw [hx _ hmem]
      exact hj
    · intro i j hi hj hout
      exact padWhite_border 15 x hx i j (by omega) (by omega) hout
  · -- (e) row count scales by 2.5x
    rw [improve_resolution, resize2_5linear_length, padWhite_length]
  · -- (e) column count scales by 2.5x
    rw [improve_resolution,
      resize2_5linear_width _ (by rw [padWhite_length]; omega),
      padWhite_width 15 (by omega)]

/-- C2 witness: the theorem applied at a concrete 2x2 image, extracting the
pointwise bounding-box characterization of the crop. -/
theorem C2_improve_resolution_witness :
    (∀ row ∈ ([[255, 255], [255, 7]] : GrayImage),
      row.length = imgWidth [[255, 255], [255, 7]]) ∧
    (improve_resolution [[255, 255], [255, 7]]).length =
      cvRound2_5 ((cropWhiteBorder [[255, 255], [255, 7]]).length + 30) :=
  ⟨by decide, (C2_improve_resolution [[255, 255], [255, 7]] (by decide)).2.2.2.2.2.1⟩

/-! ### Polling primitives (utils.py)

Real time is modelled with an explicit sequence of clock readings:
`times k` is the value returned by the `k`-th call to `time.time()` in the
run, and the predicate/producer is a function of its evaluation index.
`fuel` bounds the number of loop iterations modelled; a result of `none`
means the loop was still running when the fuel ran out (the Python loop has
no iteration bound of its own). -/

/-- The loop of `wait_for` (utils.py lines 10-15), entered with `k`
evaluations of `condition` already failed... in fact entered at evaluation
index `k`: evaluate `condition()` (index `k`); on success return `True`;
otherwise read the clock (reading index `k + 1`, `times 0` being `start`)
and return `False` when more than `timeout` has elapsed, else sleep and
iterate.  The second component counts the evaluations of `condition`. -/
def wait_for_run (cond : Nat → Bool) (times : Nat → ℚ) (timeout : ℚ) :
    Nat → Nat → Option Bool × Nat
  | 0, k => (none, k)
  | fuel + 1, k =>
    if cond k then (some true, k + 1)
    else if times (k + 1) - times 0 > timeout then (some false, k + 1)
    else wait_for_run cond times timeout fuel (k + 1)

/-- The loop of `wait_to_be_set` (utils.py lines 30-34), entered at clock
reading index `i` with the current `result` equal to `None` (evaluations
`0 .. i-1` have all produced `None`): read the clock; `break` (returning the
absent `result`) when more than `timeout` has elapsed since `start`
(`times 0`); otherwise sleep, evaluate `condition()` (index `i`), and loop
while the result is absent.  The second component counts the evaluations. -/
def wait_to_be_set_loop {α : Type} (prod : Nat → Option α) (times : Nat → ℚ)
    (timeout : ℚ) : Nat → Nat → Option (Option α) × Nat
  | 0, i => (none, i)
  | fuel + 1, i =>
    if times i - times 0 > timeout then (some none, i)
    else
      match prod i with
      | some v => (some (some v), i + 1)
      | none => wait_to_be_set_loop prod times timeout fuel (i + 1)

/-- `wait_to_be_set` (utils.py lines 18-35): evaluate the producer once
(index 0), then take `start = time.time()` (reading 0) and run the loop. -/
def wait_to_be_set_run {α : Type} (prod : Nat → Option α) (times : Nat → ℚ)
    (timeout : ℚ) (fuel : Nat) : Option (Option α) × Nat :=
  match prod 0 with
  | some v => (some (some v), 1)
  | none => wait_to_be_set_loop prod times timeout fuel 1

lemma wait_for_run_first_true (cond : Nat → Bool) (times : Nat → ℚ) (timeout : ℚ) :
    ∀ d s fuel : Nat, (∀ j, s ≤ j → j < s + d → cond j = false) →
      cond (s + d) = true →
      (∀ j, s < j → j ≤ s + d → times j - times 0 ≤ timeout) → d < fuel →
      wait_for_run cond times timeout fuel s = (some true, s + d + 1) := by
  intro d
  induction d with
  | zero =>
    intro s fuel _ htrue _ hfuel
    obtain ⟨f, rfl⟩ : ∃ f, fuel = f + 1 := ⟨fuel - 1, by omega⟩
    rw [wait_for_run]
    simp only [Nat.add_zero] at htrue
    rw [htrue]
    simp
  | succ d ih =>
    intro s fuel hfalse htrue htime hfuel
    obtain ⟨f, rfl⟩ : ∃ f, fuel = f + 1 := ⟨fuel - 1, by omega⟩
    rw [wait_for_run]
    rw [hfalse s le_rfl (by omega)]
    rw [if_neg (by simp), if_neg (by push_neg; exact htime (s + 1) (by omega) (by omega))]
    have := ih (s + 1) f (fun j h1 h2 => hfalse j (by omega) (by omega))
      (by rw [show s + 1 + d = s + (d + 1) by omega]; exact htrue)
      (fun j h1 h2 => htime j (by omega) (by omega)) (by omega)
    rw [this]
    congr 2
    omega

lemma wait_for_run_timeout_false (cond : Nat → Bool) (times : Nat → ℚ) (timeout : ℚ) :
    ∀ d s fuel : Nat, (∀ j, s ≤ j → j ≤ s + d → cond j = false) →
      (∀ j, s < j → j ≤ s + d → times j - times 0 ≤ timeout) →
      times (s + d + 1) - times 0 > timeout → d + 1 ≤ fuel →
      wait_for_run cond times timeout fuel s = (some false, s + d + 1) := by
  intro d
  induction d with
  | zero =>
    intro s fuel hfalse _ hlate hfuel
    obtain ⟨f, rfl⟩ : ∃ f, fuel = f + 1 := ⟨fuel - 1, by omega⟩
    rw [wait_for_run, hfalse s le_rfl (by omega)]
    rw [if_neg (by simp), if_pos (by simpa using hlate)]
  | succ d ih =>
    intro s fuel hfalse htime hlate hfuel
    obtain ⟨f, rfl⟩ : ∃ f, fuel = f + 1 := ⟨fuel - 1, by omega⟩
    rw [wait_for_run, hfalse s le_rfl (by omega)]
    rw [if_neg (by simp), if_neg (by push_neg; exact htime (s + 1) (by omega) (by omega))]
    have := ih (s + 1) f (fun j h1 h2 => hfalse j (by omega) (by omega))
      (fun j h1 h2 => htime j (by omega) (by omega))
      (by rw [show s + 1 + d + 1 = s + (d + 1) + 1 by omega]; exact hlate) (by omega)
    rw [this]
    congr 2
    omega

/-- C6: `wait_for` returns true as soon as an evaluation of the predicate
yields true — an always-true predicate succeeds at the very first evaluation
with no sleep (evaluation count 1) — and returns false without evaluating
the predicate again once a clock reading exceeds `start + timeout` while
every evaluation so far yielded false (evaluation count exactly `k + 1`). -/
theorem C6_wait_for (cond : Nat → Bool) (times : Nat → ℚ) (timeout : ℚ)
    (k fuel : Nat) :
    (cond 0 = true → 0 < fuel →
      wait_for_run cond times timeout fuel 0 = (some true, 1)) ∧
    ((∀ j, j < k → cond j = false) → cond k = true →
      (∀ j, 1 ≤ j → j ≤ k → times j - times 0 ≤ timeout) → k < fuel →
      wait_for_run cond times timeout fuel 0 = (some true, k + 1)) ∧
    ((∀ j, j ≤ k → cond j = false) →
      (∀ j, 1 ≤ j → j ≤ k → times j - times 0 ≤ timeout) →
      times (k + 1) - times 0 > timeout → k + 1 ≤ fuel →
      wait_for_run cond times timeout fuel 0 = (some false, k + 1)) := by
  refine ⟨?_, ?_, ?_⟩
  · intro h0 hf
    have := wait_for_run_first_true cond times timeout 0 0 fuel
      (by omega) (by simpa using h0) (by omega) hf
    simpa using this
  · intro hfalse htrue htime hf
    have := wait_for_run_first_true cond times timeout k 0 fuel
      (fun j h1 h2 => hfalse j (by omega)) (by simpa using htrue)
      (fun j h1 h2 => htime j h1 (by omega)) hf
    simpa using this
  · intro hfalse htime hlate hf
    have := wait_for_run_timeout_false cond times timeout k 0 fuel
      (fun j h1 h2 => hfalse j (by omega))
      (fun j h1 h2 => htime j h1 (by omega)) (by simpa using hlate) hf
    simpa using this

/-- C6 witness: an always-true predicate returns true after one evaluation,
applying the theorem at concrete inputs. -/
theorem C6_wait_for_witness :
    ((fun _ : Nat => true) 0 = true ∧ 0 < 3) ∧
    wait_for_run (fun _ => true) (fun k => (k : ℚ)) 1 3 0 = (some true, 1) :=
  ⟨⟨rfl, by omega⟩,
    (C6_wait_for (fun _ => true) (fun k => (k : ℚ)) 1 0 3).1 rfl (by omega)⟩

lemma wait_to_be_set_loop_first (α : Type) (prod : Nat → Option α)
    (times : Nat → ℚ) (timeout : ℚ) (v : α) :
    ∀ d s fuel : Nat, (∀ j, s ≤ j → j < s + d → prod j = none) →
      prod (s + d) = some v →
      (∀ j, s ≤ j → j ≤ s + d → times j - times 0 ≤ timeout) → d < fuel →
      wait_to_be_set_loop prod times timeout fuel s = (some (some v), s + d + 1) := by
  intro d
  induction d with
  | zero =>
    intro s fuel _ hsome htime hfuel
    obtain ⟨f, rfl⟩ : ∃ f, fuel = f + 1 := ⟨fuel - 1, by omega⟩
    rw [wait_to_be_set_loop,
      if_neg (by push_neg; exact htime s le_rfl (by omega))]
    simp only [Nat.add_zero] at hsome
    rw [hsome]
  | succ d ih =>
    intro s fuel hnone hsome htime hfuel
    obtain ⟨f, rfl⟩ : ∃ f, fuel = f + 1 := ⟨fuel - 1, by omega⟩
    rw [wait_to_be_set_loop,
      if_neg (by push_neg; exact htime s le_rfl (by omega)),
      hnone s le_rfl (by omega)]
    show wait_to_be_set_loop prod times timeout f (s + 1) = _
    rw [ih (s + 1) f (fun j h1 h2 => hnone j (by omega) (by omega))
      (by rw [show s + 1 + d = s + (d + 1) by omega]; exact hsome)
      (fun j h1 h2 => htime j (by omega) (by omega)) (by omega)]
    congr 2
    omega

lemma wait_to_be_set_loop_timeout (α : Type) (prod : Nat → Option α)
    (times : Nat → ℚ) (timeout : ℚ) :
    ∀ fuel s : Nat, (∀ j, prod j = none) →
      (∃ m, s ≤ m ∧ m < s + fuel ∧ times m - times 0 > timeout) →
      (wait_to_be_set_loop prod times timeout fuel s).1 = some none := by
  intro fuel
  induction fuel with
  | zero =>
    intro s _ ⟨m, h1, h2, _⟩
    omega
  | succ f ih =>
    intro s hnone ⟨m, h1, h2, hm⟩
    rw [wait_to_be_set_loop]
    by_cases hs : times s - times 0 > timeout
    · rw [if_pos hs]
    · rw [if_neg hs, hnone s]
      refine ih (s + 1) hnone ⟨m, ?_, by omega, hm⟩
      rcases Nat.eq_or_lt_of_le h1 with rfl | h
      · exact absurd hm hs
      · omega

/-- C5: `wait_to_be_set` evaluates the producer exactly once before the
timeout clock starts, so with `timeout = 0` and a strictly advancing clock
the run performs exactly one evaluation; it returns the first non-absent
value the producer yields, whatever later evaluations would yield; and it
returns absent once the timeout elapses with every evaluation absent. -/
theorem C5_wait_to_be_set (α : Type) (prod : Nat → Option α) (times : Nat → ℚ)
    (timeout : ℚ) (v : α) (k fuel : Nat) :
    (timeout = 0 → times 1 - times 0 > 0 → 0 < fuel →
      wait_to_be_set_run prod times timeout fuel = (some (prod 0), 1)) ∧
    ((∀ j, j < k → prod j = none) → prod k = some v →
      (∀ i, 1 ≤ i → i ≤ k → times i - times 0 ≤ timeout) → k < fuel →
      wait_to_be_set_run prod times timeout fuel = (some (some v), k + 1)) ∧
    ((∀ j, prod j = none) →
      (∃ m, 1 ≤ m ∧ m ≤ fuel ∧ times m - times 0 > timeout) →
      (wait_to_be_set_run prod times timeout fuel).1 = some none) := by
  refine ⟨?_, ?_, ?_⟩
  · intro ht hadv hf
    subst ht
    rw [wait_to_be_set_run]
    cases h0 : prod 0 with
    | some v0 => rfl
    | none =>
      obtain ⟨f, rfl⟩ : ∃ f, fuel = f + 1 := ⟨fuel - 1, by omega⟩
      rw [wait_to_be_set_loop, if_pos hadv]
    -- the count is 1 in both branches: one evaluation happened
  · intro hnone hsome htime hf
    rw [wait_to_be_set_run]
    cases hk : k with
    | zero =>
      subst hk
      rw [hsome]
    | succ k0 =>
      subst hk
      rw [hnone 0 (by omega)]
      show wait_to_be_set_loop prod times timeout fuel 1 = _
      rw [wait_to_be_set_loop_first α prod times timeout v k0 1 fuel
        (fun j h1 h2 => hnone j (by omega)) (by
          rw [show 1 + k0 = k0 + 1 by omega]; exact hsome)
        (fun j h1 h2 => htime j h1 (by omega)) (by omega)]
      congr 2
      omega
  · intro hnone ⟨m, h1, h2, hm⟩
    rw [wait_to_be_set_run, hnone 0]
    exact wait_to_be_set_loop_timeout α prod times timeout fuel 1 hnone
      ⟨m, h1, by omega, hm⟩

/-- C5 witness: a producer absent on evaluation 0 and present on
evaluation 1 yields that first value, applying the theorem concretely. -/
theorem C5_wait_to_be_set_witness :
    ((∀ j, j < 1 → (fun i => if i = 0 then (none : Option Nat) else some (10 * i)) j = none) ∧
      (fun i => if i = 0 then (none : Option Nat) else some (10 * i)) 1 = some 10 ∧
      (∀ i : Nat, 1 ≤ i → i ≤ 1 → ((i : ℚ) / 10) - ((0 : ℚ) / 10) ≤ 1) ∧ 1 < 3) ∧
    wait_to_be_set_run (fun i => if i = 0 then (none : Option Nat) else some (10 * i))
      (fun i => (i : ℚ) / 10) 1 3 = (some (some 10), 2) :=
  ⟨⟨by decide, by norm_num, by intro i h1 h2; rw [show i = 1 by omega]; norm_num, by omega⟩,
    (C5_wait_to_be_set Nat (fun i => if i = 0 then none else some (10 * i))
      (fun i => (i : ℚ) / 10) 1 10 1 3).2.1 (by decide) (by norm_num)
      (by intro i h1 h2; rw [show i = 1 by omega]; norm_num) (by omega)⟩

/-! ### Template locator (screen.py) -/

/-- `Point` from geometry.py: non-negative integer screen coordinates,
origin at the top-left, equality by field comparison. -/
structure Point where
  X : Nat
  Y : Nat
deriving Repr, DecidableEq

/-- All cells of a correlation map in row-major scan order, each as
`(value, x, y)` with `x` the column and `y` the row (the coordinate order
`cv2.minMaxLoc` reports). -/
def mapCells (result : List (List ℚ)) : List (ℚ × Nat × Nat) :=
  ((List.range result.length).map (fun i =>
    (List.range ((result.getD i []).length)).map (fun j =>
      ((result.getD i []).getD j 0, j, i)))).flatten

/-- The max half of `cv2.minMaxLoc`: the largest value of the correlation
map, with the location of its first occurrence in row-major scan order
(strict improvement keeps the earlier cell).  Modelled from the external
library's documented behaviour; the map itself — the output of
`cv2.matchTemplate` — stays abstract as rational scores. -/
def minMaxLocMax (result : List (List ℚ)) : ℚ × Nat × Nat :=
  match mapCells result with
  | [] => (0, 0, 0)
  | c :: rest => rest.foldl (fun best x => if x.1 > best.1 then x else best) c

/-- The decision step of `Screen.__locate_on_screen` (screen.py lines
108-115): take the global maximum of the correlation map; when it strictly
exceeds `confidence`, return the match location shifted by half the
template's width and height (integer floor division), else report absent. -/
def locate_decision (result : List (List ℚ)) (tw th : Nat)
    (confidence : ℚ) : Option Point :=
  let m := minMaxLocMax result
  if m.1 > confidence then some ⟨m.2.1 + tw / 2, m.2.2 + th / 2⟩ else none

inductive LocEvent
  | capture
  | load
deriving Repr, DecidableEq, BEq

inductive LocError
  | precondition
  | notFound
deriving Repr, DecidableEq

/-- `Screen.__locate_on_screen` (screen.py lines 96-115) as an event trace:
the `assert 0 <= confidence <= 1` runs first (an `AssertionError` before
any external call); then `self.display.screenshot(frame)` captures the
frame; then `cv2.imread(imagePath)` loads the reference image, and a `None`
result raises `FileNotFoundError`; finally the correlation decision runs.
`imreadOk` abstracts whether the path resolves to a readable image, and
`result`, `tw`, `th` abstract the external matcher's output and the
template's dimensions. -/
def locate_on_screen_run (confidence : ℚ) (imreadOk : Bool)
    (result : List (List ℚ)) (tw th : Nat) :
    List LocEvent × Except LocError (Option Point) :=
  if ¬ (0 ≤ confidence ∧ confidence ≤ 1) then ([], .error .precondition)
  else if ¬ imreadOk then ([.capture, .load], .error .notFound)
  else ([.capture, .load], .ok (locate_decision result tw th confidence))

lemma foldl_max_mem (c : ℚ × Nat × Nat) (rest : List (ℚ × Nat × Nat)) :
    rest.foldl (fun best x => if x.1 > best.1 then x else best) c ∈ c :: rest := by
  induction rest generalizing c with
  | nil => simp
  | cons a t ih =>
    rw [List.foldl_cons]
    rcases List.mem_cons.mp (ih (if a.1 > c.1 then a else c)) with heq | hmem
    · rw [heq]
      by_cases hac : a.1 > c.1
      · rw [if_pos hac]
        exact List.mem_cons_of_mem _ (List.mem_cons_self _ _)
      · rw [if_neg hac]
        exact List.mem_cons_self _ _
    · exact List.mem_cons_of_mem _ (List.mem_cons_of_mem _ hmem)

lemma foldl_max_init_le (b : ℚ × Nat × Nat) (t : List (ℚ × Nat × Nat)) :
    b.1 ≤ (t.foldl (fun best y => if y.1 > best.1 then y else best) b).1 := by
  induction t generalizing b with
  | nil => simp
  | cons a t ih =>
    rw [List.foldl_cons]
    refine le_trans ?_ (ih (if a.1 > b.1 then a else b))
    by_cases hab : a.1 > b.1
    · rw [if_pos hab]
      exact le_of_lt hab
    · rw [if_neg hab]

lemma foldl_max_ge (c : ℚ × Nat × Nat) (rest : List (ℚ × Nat × Nat))
    (x : ℚ × Nat × Nat) (hx : x ∈ c :: rest) :
    x.1 ≤ (rest.foldl (fun best y => if y.1 > best.1 then y else best) c).1 := by
  induction rest generalizing c with
  | nil =>
    rw [List.foldl_nil]
    rcases List.mem_cons.mp hx with rfl | h
    · exact le_refl _
    · cases h
  | cons a t ih =>
    rw [List.foldl_cons]
    have hinit : c.1 ≤ (if a.1 > c.1 then a else c).1 ∧
        a.1 ≤ (if a.1 > c.1 then a else c).1 := by
      by_cases hac : a.1 > c.1
      · rw [if_pos hac]
        exact ⟨le_of_lt hac, le_refl _⟩
      · rw [if_neg hac]
        exact ⟨le_refl _, le_of_not_lt hac⟩
    rcases List.mem_cons.mp hx with rfl | h
    · exact le_trans hinit.1 (foldl_max_init_le _ t)
    · rcases List.mem_cons.mp h with rfl | h2
      · exact le_trans hinit.2 (foldl_max_init_le _ t)
      · exact ih _ (List.mem_cons_of_mem _ h2)

lemma mem_mapCells {result : List (List ℚ)} {x : ℚ × Nat × Nat} :
    x ∈ mapCells result ↔
      ∃ i j, i < result.length ∧ j < (result.getD i []).length ∧
        x = ((result.getD i []).getD j 0, j, i) := by
  simp only [mapCells, List.mem_flatten, List.mem_map, List.mem_range]
  constructor
  · rintro ⟨_, ⟨i, hi, rfl⟩, hx⟩
    simp only [List.mem_map, List.mem_range] at hx
    obtain ⟨j, hj, rfl⟩ := hx
    exact ⟨i, j, hi, hj, rfl⟩
  · rintro ⟨i, j, hi, hj, rfl⟩
    refine ⟨_, ⟨i, hi, rfl⟩, ?_⟩
    simp only [List.mem_map, List.mem_range]
    exact ⟨j, hj, rfl⟩

/-- C3: for a non-empty correlation map, the single-shot locate decision
reports the global maximum of the map: the reported value is attained at the
reported location, it dominates every cell of the map, and the operation
returns that location shifted by `(tw / 2, th / 2)` (floor division) exactly
when the maximum strictly exceeds `confidence`, reporting absent — not an
error — otherwise. -/
theorem C3_locate_decision (result : List (List ℚ)) (tw th : Nat)
    (confidence : ℚ) (hne : result ≠ [])
    (hrows : ∀ row ∈ result, row ≠ []) :
    (minMaxLocMax result).2.2 < result.length ∧
    (minMaxLocMax result).2.1 < (result.getD (minMaxLocMax result).2.2 []).length ∧
    (result.getD (minMaxLocMax result).2.2 []).getD (minMaxLocMax result).2.1 0 =
      (minMaxLocMax result).1 ∧
    (∀ i j, i < result.length → j < (result.getD i []).length →
      (result.getD i []).getD j 0 ≤ (minMaxLocMax result).1) ∧
    ((minMaxLocMax result).1 > confidence →
      locate_decision result tw th confidence =
        some ⟨(minMaxLocMax result).2.1 + tw / 2, (minMaxLocMax result).2.2 + th / 2⟩) ∧
    (¬ (minMaxLocMax result).1 > confidence →
      locate_decision result tw th confidence = none) := by
  have hcells : mapCells result ≠ [] := by
    have h0 : 0 < result.length := List.length_pos.mpr hne
    have hrow0 : result.getD 0 [] ∈ result := by
      rw [List.getD_eq_getElem _ _ h0]
      exact List.getElem_mem _
    have hw0 : 0 < (result.getD 0 []).length := List.length_pos.mpr (hrows _ hrow0)
    exact List.ne_nil_of_mem (mem_mapCells.mpr ⟨0, 0, h0, hw0, rfl⟩)
  obtain ⟨c, rest, hcr⟩ : ∃ c rest, mapCells result = c :: rest := by
    cases h : mapCells result with
    | nil => exact absurd h hcells
    | cons c rest => exact ⟨c, rest, rfl⟩
  have hmdef : minMaxLocMax result =
      rest.foldl (fun best x => if x.1 > best.1 then x else best) c := by
    rw [minMaxLocMax, hcr]
  have hmem : minMaxLocMax result ∈ mapCells result := by
    rw [hmdef, hcr]
    exact foldl_max_mem c rest
  obtain ⟨i, j, hi, hj, hx⟩ := mem_mapCells.mp hmem
  have hloc : (minMaxLocMax result).2.1 = j ∧ (minMaxLocMax result).2.2 = i ∧
      (minMaxLocMax result).1 = (result.getD i []).getD j 0 := by
    rw [hx]
    exact ⟨rfl, rfl, rfl⟩
  refine ⟨?_, ?_, ?_, ?_, ?_, ?_⟩
  · rw [hloc.2.1]
    exact hi
  · rw [hloc.1, hloc.2.1]
    exact hj
  · rw [hloc.1, hloc.2.1, hloc.2.2]
  · intro i' j' hi' hj'
    have hmem' : ((result.getD i' []).getD j' 0, j', i') ∈ mapCells result :=
      mem_mapCells.mpr ⟨i', j', hi', hj', rfl⟩
    rw [hcr] at hmem'
    have := foldl_max_ge c rest _ hmem'
    rw [← hmdef] at this
    exact this
  · intro hgt
    rw [locate_decision, if_pos hgt]
  · intro hle
    rw [locate_decision, if_neg hle]

/-- C3 witness: a 2x2 correlation map whose maximum 1 exceeds
confidence 0; the theorem applied there, extracting the positive branch. -/
theorem C3_locate_decision_witness :
    (([[(0:ℚ), 1], [0, 0]] : List (List ℚ)) ≠ [] ∧
      (∀ row ∈ ([[(0:ℚ), 1], [0, 0]] : List (List ℚ)), row ≠ []) ∧
      (minMaxLocMax [[(0:ℚ), 1], [0, 0]]).1 > 0) ∧
    locate_decision [[(0:ℚ), 1], [0, 0]] 4 2 0 =
      some ⟨(minMaxLocMax [[(0:ℚ), 1], [0, 0]]).2.1 + 4 / 2,
            (minMaxLocMax [[(0:ℚ), 1], [0, 0]]).2.2 + 2 / 2⟩ :=
  ⟨⟨by decide, by decide, by decide⟩,
    (C3_locate_decision [[(0:ℚ), 1], [0, 0]] 4 2 0 (by decide)
      (by decide)).2.2.2.2.1 (by decide)⟩

/-- C4: counterexample.  With a valid confidence and an unreadable reference
image, the run does fail with a NotFound error, but the frame capture
happens BEFORE the reference-image load (screenshot on line 103, imread on
line 104), so the claimed ordering — the load preceding the capture — is
false. -/
theorem C4_counterexample :
    (0:ℚ) ≤ 1/2 ∧ (1/2:ℚ) ≤ 1 ∧
    (locate_on_screen_run (1/2) false [[1]] 1 1).2 = .error .notFound ∧
    (locate_on_screen_run (1/2) false [[1]] 1 1).1 = [.capture, .load] ∧
    (locate_on_screen_run (1/2) false [[1]] 1 1).1.indexOf LocEvent.capture <
      (locate_on_screen_run (1/2) false [[1]] 1 1).1.indexOf LocEvent.load := by
  have hrun : locate_on_screen_run (1/2) false [[1]] 1 1 =
      ([.capture, .load], .error .notFound) := by
    rw [locate_on_screen_run, if_neg (by norm_num), if_pos (by simp)]
  refine ⟨by norm_num, by norm_num, by rw [hrun], by rw [hrun], ?_⟩
  rw [hrun]
  decide

/-- C4 (amended): a confidence outside `[0, 1]` fails with a precondition
violation before any screen capture (the event trace is empty); a valid
confidence with an unreadable reference image fails with a NotFound error,
distinct from a precondition violation, with the frame capture preceding
the reference-image load. -/
theorem C4_amended_locate_errors (confidence : ℚ) (imreadOk : Bool)
    (result : List (List ℚ)) (tw th : Nat) :
    (¬ (0 ≤ confidence ∧ confidence ≤ 1) →
      locate_on_screen_run confidence imreadOk result tw th =
        ([], .error .precondition)) ∧
    ((0 ≤ confidence ∧ confidence ≤ 1) → imreadOk = false →
      locate_on_screen_run confidence imreadOk result tw th =
        ([.capture, .load], .error .notFound)) ∧
    LocError.notFound ≠ LocError.precondition := by
  refine ⟨?_, ?_, by decide⟩
  · intro h
    rw [locate_on_screen_run, if_pos h]
  · intro h hok
    subst hok
    rw [locate_on_screen_run, if_neg (by simpa using h)]
    rfl

/-- C4 witness: the amended theorem applied at confidence 101/100 (rejected
with an empty trace) — the hypothesis discharged concretely. -/
theorem C4_amended_locate_errors_witness :
    (¬ ((0:ℚ) ≤ 101/100 ∧ (101/100:ℚ) ≤ 1)) ∧
    locate_on_screen_run (101/100) true [[1]] 1 1 = ([], .error .precondition) :=
  ⟨by norm_num,
    (C4_amended_locate_errors (101/100) true [[1]] 1 1).1 (by norm_num)⟩

/-- `Screen.wait_for_image` (screen.py lines 76-84): poll the locate
operation through `wait_to_be_set` with the hard-coded budget `1`; the
`timeout` parameter is used only in the `TimeoutError` message.  `loc k` is
the value the locate operation would return on its `k`-th evaluation and
`times`/`fuel` are the clock model of `wait_to_be_set_run`; `none` means the
poll loop was still running when the fuel ran out. -/
def wait_for_image_run (loc : Nat → Option Point) (times : Nat → ℚ)
    (timeout : ℚ) (fuel : Nat) : Option (Except String Point) :=
  match wait_to_be_set_run loc times 1 fuel with
  | (some (some p), _) => some (.ok p)
  | (some none, _) => some (.error s!"Image not found in {timeout} seconds")
  | (none, _) => none

/-- `Screen.wait_for_image_to_disappear` (screen.py lines 86-94): poll the
negated locate check through `wait_for` with the hard-coded budget `1`; the
`timeout` parameter is used only in the `TimeoutError` message. -/
def wait_for_image_to_disappear_run (loc : Nat → Option Point)
    (times : Nat → ℚ) (timeout : ℚ) (fuel : Nat) :
    Option (Except String Unit) :=
  match wait_for_run (fun k => (loc k).isNone) times 1 fuel 0 with
  | (some true, _) => some (.ok ())
  | (some false, _) =>
    some (.error s!"Image did not disappear in {timeout} seconds")
  | (none, _) => none

/-- C10: the `timeout` parameter of `wait_for_image` and
`wait_for_image_to_disappear` never reaches the polling loop, which always
runs on a fixed 1-second budget: for any two timeout values the runs
succeed, fail, or keep polling identically (with the same returned point),
the parameter appearing only in the text of the error message. -/
theorem C10_timeout_ignored (loc : Nat → Option Point) (times : Nat → ℚ)
    (fuel : Nat) (t1 t2 : ℚ) :
    (∀ p, wait_for_image_run loc times t1 fuel = some (.ok p) ↔
      wait_for_image_run loc times t2 fuel = some (.ok p)) ∧
    ((∃ e, wait_for_image_run loc times t1 fuel = some (.error e)) ↔
      (∃ e, wait_for_image_run loc times t2 fuel = some (.error e))) ∧
    (wait_for_image_run loc times t1 fuel = none ↔
      wait_for_image_run loc times t2 fuel = none) ∧
    (wait_for_image_to_disappear_run loc times t1 fuel = some (.ok ()) ↔
      wait_for_image_to_disappear_run loc times t2 fuel = some (.ok ())) ∧
    ((∃ e, wait_for_image_to_disappear_run loc times t1 fuel = some (.error e)) ↔
      (∃ e, wait_for_image_to_disappear_run loc times t2 fuel = some (.error e))) ∧
    (wait_for_image_to_disappear_run loc times t1 fuel = none ↔
      wait_for_image_to_disappear_run loc times t2 fuel = none) := by
  refine ⟨?_, ?_, ?_, ?_, ?_, ?_⟩
  · intro p
    rw [wait_for_image_run, wait_for_image_run]
    rcases wait_to_be_set_run loc times 1 fuel with ⟨_ | ⟨_ | q⟩, n⟩ <;> simp
  · rw [wait_for_image_run, wait_for_image_run]
    rcases wait_to_be_set_run loc times 1 fuel with ⟨_ | ⟨_ | q⟩, n⟩ <;> simp
  · rw [wait_for_image_run, wait_for_image_run]
    rcases wait_to_be_set_run loc times 1 fuel with ⟨_ | ⟨_ | q⟩, n⟩ <;> simp
  · rw [wait_for_image_to_disappear_run, wait_for_image_to_disappear_run]
    rcases wait_for_run (fun k => (loc k).isNone) times 1 fuel 0 with ⟨_ | b, n⟩
    · simp
    · cases b <;> simp
  · rw [wait_for_image_to_disappear_run, wait_for_image_to_disappear_run]
    rcases wait_for_run (fun k => (loc k).isNone) times 1 fuel 0 with ⟨_ | b, n⟩
    · simp
    · cases b <;> simp
  · rw [wait_for_image_to_disappear_run, wait_for_image_to_disappear_run]
    rcases wait_for_run (fun k => (loc k).isNone) times 1 fuel 0 with ⟨_ | b, n⟩
    · simp
    · cases b <;> simp

/-! ### `OCR.extract_text` precondition (ocr.py lines 50-63) -/

/-- The numpy `ndim` of an array with the given shape. -/
def ndim (shape : List Nat) : Nat := shape.length

inductive OcrStep
  | binarize
  | improveResolution
  | enhance
  | tesseract
deriving Repr, DecidableEq

/-- `OCR.extract_text`, default pipeline (no custom `prepare_image`,
`preview=False`), at the level of its shape precondition: the assert
`img.ndim == 3` runs before any pipeline step, and when it passes, the
three processing steps and the OCR engine invocation run in order.  `shape`
is the numpy shape of the input array; the error is the `AssertionError`. -/
def extract_text_run (shape : List Nat) : List OcrStep × Except Unit Unit :=
  if ndim shape = 3 then
    ([.binarize, .improveResolution, .enhance, .tesseract], .ok ())
  else ([], .error ())

/-- The claim's notion of a valid input: a 3-channel pixel buffer, i.e. a
shape `[h, w, 3]`.  Written from the claim's words, to be compared with the
check the code performs. -/
def isThreeChannelShape (shape : List Nat) : Bool :=
  match shape with
  | [_, _, c] => c == 3
  | _ => false

/-- C7: counterexample.  A `(2, 2, 1)` single-channel buffer is not a
3-channel pixel buffer (and has fewer than 3 channels), yet `extract_text`'s
precondition passes — the code checks only `img.ndim == 3` — and the whole
pipeline runs. -/
theorem C7_counterexample :
    isThreeChannelShape [2, 2, 1] = false ∧
    extract_text_run [2, 2, 1] =
      ([.binarize, .improveResolution, .enhance, .tesseract], .ok ()) := by
  exact ⟨rfl, rfl⟩

/-- C7 (amended): `extract_text` fails with the precondition error, before
invoking any pipeline step or the OCR engine, exactly when the input's array
dimensionality is not 3 — in particular for every 2-dimensional
(single-channel) image — and the check passes for every 3-dimensional
buffer whatever its channel count, including every 3-channel image. -/
theorem C7_amended_extract_text_precondition (shape : List Nat) :
    (ndim shape ≠ 3 → extract_text_run shape = ([], .error ())) ∧
    (ndim shape = 3 → extract_text_run shape =
      ([.binarize, .improveResolution, .enhance, .tesseract], .ok ())) ∧
    (∀ h w : Nat, extract_text_run [h, w] = ([], .error ())) ∧
    (∀ h w : Nat, extract_text_run [h, w, 3] =
      ([.binarize, .improveResolution, .enhance, .tesseract], .ok ())) := by
  refine ⟨?_, ?_, ?_, ?_⟩
  · intro h
    rw [extract_text_run, if_neg h]
  · intro h
    rw [extract_text_run, if_pos h]
  · intro h w
    rw [extract_text_run, if_neg (by simp [ndim])]
  · intro h w
    rw [extract_text_run, if_pos (by simp [ndim])]

/-- C7 witness: the amended theorem applied at the 2-dimensional shape
`[4, 7]`, which is rejected. -/
theorem C7_amended_extract_text_precondition_witness :
    ndim [4, 7] ≠ 3 ∧ extract_text_run [4, 7] = ([], .error ()) :=
  ⟨by decide, (C7_amended_extract_text_precondition [4, 7]).1 (by decide)⟩

/-! ### `Display.run_command` with a blocking wait (display.py lines 103-130) -/

/-- `Display.run_command` with `waitFor=True`, after `proc.wait` returned
exit status `rc` (the `except` branch that returns `""` on a wait timeout is
not modelled: the claim is about processes that exit).  `stderrContent` and
`stdoutContent` are the full contents of the two pipes; each pipe can be
read once, and a second read yields the empty string.  Returns the text
logged at debug level (empty when nothing was logged) paired with the string
returned to the caller; the function is total — no error is raised. -/
def run_command_wait (rc : Int) (stderrContent stdoutContent : String) :
    String × String :=
  if rc ≠ 0 then
    if stderrContent.length = 0 then
      (stdoutContent, "")
    else
      (stderrContent, stdoutContent)
  else ("", stdoutContent)

/-- C8: counterexample.  A command exiting with status 1 that wrote to both
pipes: the failure is logged, no error is raised, but the caller receives
the command's stdout `"o"`, not the empty string the claim promises. -/
theorem C8_counterexample :
    (run_command_wait 1 "e" "o").2 = "o" ∧ "o" ≠ "" := by
  exact ⟨rfl, by decide⟩

/-- C8 (amended): on a non-zero exit status `run_command` raises no error
and logs the failure at debug level with the captured output; the caller
receives the remaining captured stdout — the empty string when the command
wrote nothing to stderr (its stdout was consumed while building the log
message), and the full stdout content otherwise. -/
theorem C8_amended_run_command (rc : Int) (serr sout : String) :
    (rc ≠ 0 → serr.length = 0 →
      run_command_wait rc serr sout = (sout, "")) ∧
    (rc ≠ 0 → serr.length ≠ 0 →
      run_command_wait rc serr sout = (serr, sout)) ∧
    (rc = 0 → run_command_wait rc serr sout = ("", sout)) := by
  refine ⟨?_, ?_, ?_⟩
  · intro hrc herr
    rw [run_command_wait, if_pos hrc, if_pos herr]
  · intro hrc herr
    rw [run_command_wait, if_pos hrc, if_neg herr]
  · intro hrc
    rw [run_command_wait, if_neg (by simp [hrc])]

/-- C8 witness: the amended theorem applied at exit status 1 with empty
stderr — the caller receives the empty string. -/
theorem C8_amended_run_command_witness :
    ((1:Int) ≠ 0 ∧ "".length = 0) ∧
    run_command_wait 1 "" "hello" = ("hello", "") :=
  ⟨⟨by decide, rfl⟩, (C8_amended_run_command 1 "" "hello").1 (by decide) rfl⟩

/-! ### The process-wide display registry (`__init__.py`) -/

/-- The class-level state of `XControl`: the insertion-ordered display
identifiers of `__instances` (the dictionary's keys; each handle is
identified by its display id) and the `uniqueDisplay` flag. -/
structure RegState where
  instances : List String
  uniqueDisplay : Bool
deriving Repr, DecidableEq

/-- One registry call: `XControl.config(u)` or
`XControl.get_instance(displayId, width, height)`, where arguments that may
be `None` are `Option`s. -/
inductive RegOp
  | config (u : Bool)
  | getInstance (id : Option String) (w h : Option Int)

/-- The argument checks `XControl.__init__` runs (through `Display.__init__`,
display.py lines 19-22) when `get_instance` constructs a new instance: the
display id must start with `":"` and width/height must be positive
integers (a `None` fails the `isinstance(_, int)` assert). -/
def ctorOk (d : String) (w h : Option Int) : Bool :=
  d.startsWith ":" &&
    (match w with | some wv => wv > 0 | none => false) &&
    (match h with | some hv => hv > 0 | none => false)

/-- `XControl.config` (lines 18-27): when `uniqueDisplay` is requested the
call asserts that at most one instance exists, then stores the flag.  A
failed assert raises before any mutation (`.error`). -/
def configRun (s : RegState) (u : Bool) : Except Unit RegState :=
  if u ∧ ¬ s.instances.length ≤ 1 then .error ()
  else .ok { s with uniqueDisplay := u }

/-- `XControl.get_instance` (lines 29-59): with no display id, assert
unique-display mode with exactly one instance and return it (the first —
only — value); with a display id, return the existing instance, or assert
`len == 0 or not uniqueDisplay`, construct (running the constructor
checks), insert, and return.  Asserts raise before any mutation. -/
def getInstanceRun (s : RegState) (id : Option String) (w h : Option Int) :
    Except Unit (RegState × String) :=
  match id with
  | none =>
    if s.uniqueDisplay = true ∧ s.instances.length = 1 then
      .ok (s, s.instances.headD "")
    else .error ()
  | some d =>
    if d ∈ s.instances then .ok (s, d)
    else if (s.instances.length = 0 ∨ ¬ s.uniqueDisplay = true) ∧
        ctorOk d w h = true then
      .ok ({ s with instances := s.instances ++ [d] }, d)
    else .error ()

/-- Apply one registry call to the state; a raised assertion (which in the
code happens before any mutation) leaves the registry unchanged. -/
def regStep (s : RegState) : RegOp → RegState
  | .config u =>
    match configRun s u with
    | .ok s2 => s2
    | .error _ => s
  | .getInstance id w h =>
    match getInstanceRun s id w h with
    | .ok (s2, _) => s2
    | .error _ => s

/-- The registry state after a sequence of calls, starting from the initial
class state (`__instances = {}`, `uniqueDisplay = False`). -/
def regRun (ops : List RegOp) : RegState :=
  ops.foldl regStep { instances := [], uniqueDisplay := false }

lemma regStep_preserves (s : RegState) (op : RegOp)
    (h : s.uniqueDisplay = true → s.instances.length ≤ 1) :
    (regStep s op).uniqueDisplay = true → (regStep s op).instances.length ≤ 1 := by
  cases op with
  | config u =>
    rw [regStep, configRun]
    by_cases hc : u ∧ ¬ s.instances.length ≤ 1
    · rw [if_pos hc]
      exact h
    · rw [if_neg hc]
      push_neg at hc
      show ({ s with uniqueDisplay := u } : RegState).uniqueDisplay = true →
        ({ s with uniqueDisplay := u } : RegState).instances.length ≤ 1
      intro hu
      exact hc hu
  | getInstance id w h2 =>
    cases id with
    | none =>
      rw [regStep, getInstanceRun]
      by_cases hc : s.uniqueDisplay = true ∧ s.instances.length = 1
      · rw [if_pos hc]
        show s.uniqueDisplay = true → s.instances.length ≤ 1
        intro _
        omega
      · rw [if_neg hc]
        exact h
    | some d =>
      rw [regStep, getInstanceRun]
      by_cases hmem : d ∈ s.instances
      · rw [if_pos hmem]
        exact h
      · rw [if_neg hmem]
        by_cases hnew : (s.instances.length = 0 ∨ ¬ s.uniqueDisplay = true) ∧
            ctorOk d w h2 = true
        · rw [if_pos hnew]
          show ({ s with instances := s.instances ++ [d] } : RegState).uniqueDisplay = true →
            ({ s with instances := s.instances ++ [d] } : RegState).instances.length ≤ 1
          intro hu
          rcases hnew.1 with hz | hnu
          · show (s.instances ++ [d]).length ≤ 1
            simp [hz]
          · exact absurd hu hnu
        · rw [if_neg hnew]
          exact h

lemma regRun_foldl_inv (ops : List RegOp) :
    ∀ s : RegState, (s.uniqueDisplay = true → s.instances.length ≤ 1) →
      ((ops.foldl regStep s).uniqueDisplay = true →
        (ops.foldl regStep s).instances.length ≤ 1) := by
  induction ops with
  | nil =>
    intro s h
    simpa using h
  | cons op rest ih =>
    intro s h
    rw [List.foldl_cons]
    exact ih (regStep s op) (regStep_preserves s op h)

/-- C9: in unique-display mode the registry holds at most one handle after
any sequence of `config` and `get_instance` calls; a `get_instance` with a
new display identifier fails while the registry is non-empty in unique
mode; and a request without a display identifier succeeds exactly when
unique-display mode is set and exactly one handle exists, returning that
handle. -/
theorem C9_registry_invariant :
    (∀ ops : List RegOp, (regRun ops).uniqueDisplay = true →
      (regRun ops).instances.length ≤ 1) ∧
    (∀ (s : RegState) (d : String) (w h : Option Int),
      s.uniqueDisplay = true → s.instances ≠ [] → d ∉ s.instances →
      getInstanceRun s (some d) w h = .error ()) ∧
    (∀ (s : RegState) (w h : Option Int),
      (∃ r, getInstanceRun s none w h = .ok r) ↔
        (s.uniqueDisplay = true ∧ s.instances.length = 1)) ∧
    (∀ (s : RegState) (x : String) (w h : Option Int),
      s.uniqueDisplay = true → s.instances = [x] →
      getInstanceRun s none w h = .ok (s, x)) := by
  refine ⟨?_, ?_, ?_, ?_⟩
  · intro ops
    exact regRun_foldl_inv ops _ (by simp)
  · intro s d w h hu hne hmem
    rw [getInstanceRun, if_neg hmem, if_neg ?_]
    rintro ⟨hz | hnu, -⟩
    · exact hne (List.length_eq_zero.mp hz)
    · exact hnu hu
  · intro s w h
    constructor
    · rintro ⟨r, hr⟩
      rw [getInstanceRun] at hr
      by_cases hc : s.uniqueDisplay = true ∧ s.instances.length = 1
      · exact hc
      · rw [if_neg hc] at hr
        cases hr
    · intro hc
      exact ⟨(s, s.instances.headD ""), by rw [getInstanceRun, if_pos hc]⟩
  · intro s x w h hu hx
    rw [getInstanceRun, if_pos ⟨hu, by rw [hx]; rfl⟩, hx]
    rfl

/-- C9 witness: the theorem's no-identifier clause applied to a concrete
one-handle unique-mode registry. -/
theorem C9_registry_invariant_witness :
    ((RegState.mk [":1"] true).uniqueDisplay = true ∧
      (RegState.mk [":1"] true).instances = [":1"]) ∧
    getInstanceRun (RegState.mk [":1"] true) none none none =
      .ok (RegState.mk [":1"] true, ":1") :=
  ⟨⟨rfl, rfl⟩,
    C9_registry_invariant.2.2.2 (RegState.mk [":1"] true) ":1" none none rfl rfl⟩

end XCtl
